import Mathlib

/-!
# Verification of the `lv` media-library core

Shallow embedding of the persistent index store (`src-imgui/src/db.rs`),
the background job engine (`src/jobs.rs`), the texture cache
(`src/preload.rs`) and the video-debounce state machine (`src/main.rs`),
together with proofs of the specification claims about them.

SQL tables are modelled as association lists of rows; each Rust method is
translated statement by statement into a pure Lean function on the store
state.  Queries ending in `ORDER BY RANDOM() LIMIT 1` are modelled by the
list of candidate rows the SQL `WHERE` clause admits: the returned row is
an arbitrary member of that list.
-/

namespace LV

/-- A row of the `files` table
(`files(id, path UNIQUE, dir, filename, size, modified_at, hash_sha512, meta_id, temporary)`). -/
structure FileRow where
  id : Nat
  path : String
  dir : String
  filename : String
  size : Option Int
  modifiedAt : Option String
  hash : Option String
  metaId : Option Nat
  temporary : Bool
  deriving Repr, DecidableEq

/-- A row of the `meta` table (the columns the claims touch:
`meta(id, width, pnginfo, tags)`; `tags` is stored as a JSON array of
strings, modelled here in parsed form). -/
structure MetaRow where
  id : Nat
  width : Option Nat
  pnginfo : Option String
  tags : List String
  deriving Repr, DecidableEq

/-- A row of the `directories` table. -/
structure DirRow where
  path : String
  tracked : Bool
  watched : Bool
  recursive : Bool
  deriving Repr, DecidableEq

/-- The persistent store: the tables of `lv.db` plus the connection's
`last_insert_rowid` register (SQLite keeps it per connection; `INSERT OR
IGNORE` that ignores leaves it untouched). `history` rows are
`(file_id, action)` pairs in insertion order; `fails` rows are
`(file_id, layer)` pairs of the `job_fails` table. -/
structure Store where
  files : List FileRow
  metas : List MetaRow
  dirs : List DirRow
  history : List (Nat × String)
  fails : List (Nat × String)
  lastInsertRowid : Nat
  deriving Repr, DecidableEq

/-- Rust `str::starts_with` (byte prefix; on valid UTF-8 this is exactly
character-list prefix). -/
def strStartsWith (s pre : String) : Bool :=
  pre.data.isPrefixOf s.data

/-- `Db::dir_is_covered` (db.rs:157): collect the paths of rows with
`tracked = 1 AND recursive = 1` and test
`p == *dir || p.starts_with(&format!("{}/", dir))` for each. -/
def dir_is_covered (st : Store) (p : String) : Bool :=
  ((st.dirs.filter (fun d => d.tracked && d.recursive)).map (·.path)).any
    (fun dir => p = dir || strStartsWith p (dir ++ "/"))

/-- CLAIM C3 — `is_covered(p)` is true iff some stored directory `q` is
tracked and recursive and `p` equals `q.path` or starts with
`q.path ++ "/"`; and in particular a tracked recursive `/photo` does not
cover `/photos`. -/
theorem dir_is_covered_iff :
    (∀ (st : Store) (p : String),
      dir_is_covered st p = true ↔
        ∃ q ∈ st.dirs, q.tracked = true ∧ q.recursive = true ∧
          (p = q.path ∨ strStartsWith p (q.path ++ "/") = true)) ∧
    dir_is_covered ⟨[], [], [⟨"/photo", true, false, true⟩], [], [], 0⟩ "/photos" = false := by
  constructor
  · intro st p
    simp only [dir_is_covered, List.any_eq_true, List.mem_map, List.mem_filter,
      Bool.and_eq_true, Bool.or_eq_true, decide_eq_true_eq]
    constructor
    · rintro ⟨dir, ⟨q, ⟨hq, ht, hr⟩, rfl⟩, hmatch⟩
      exact ⟨q, hq, ht, hr, hmatch⟩
    · rintro ⟨q, hq, ht, hr, hmatch⟩
      exact ⟨q.path, ⟨q, ⟨hq, ht, hr⟩, rfl⟩, hmatch⟩
  · decide

/-! ## File catalogue: `file_insert`, `file_update_meta` -/

/-- SQLite rowid assignment for `INTEGER PRIMARY KEY`: one more than the
largest rowid currently in the table. -/
def maxId (fs : List FileRow) : Nat :=
  fs.foldr (fun f m => max f.id m) 0

/-- `Db::file_insert` (db.rs:467): `INSERT OR IGNORE INTO files ...`
followed unconditionally by `Some(db.last_insert_rowid())`.  When the
path is already present the insert is ignored (the table and the
connection's `last_insert_rowid` are untouched) and the method still
returns `Some` of the stale register. -/
def file_insert (st : Store) (path dir filename : String)
    (size : Option Int) (modifiedAt : Option String) : Option Nat × Store :=
  if st.files.any (fun f => f.path = path) then
    (some st.lastInsertRowid, st)
  else
    let newId := maxId st.files + 1
    (some newId,
      { st with
        files := st.files ++ [⟨newId, path, dir, filename, size, modifiedAt, none, none, false⟩],
        lastInsertRowid := newId })

/-- `Db::file_update_meta` (db.rs:484): `UPDATE files SET size = ?1,
modified_at = ?2, hash_sha512 = NULL, meta_id = NULL WHERE id = ?3`. -/
def file_update_meta (st : Store) (fid : Nat)
    (size : Option Int) (modifiedAt : Option String) : Store :=
  { st with
    files := st.files.map (fun f =>
      if f.id = fid then
        { f with size := size, modifiedAt := modifiedAt, hash := none, metaId := none }
      else f) }

/-- CLAIM C1 — the claim says `insert` returns `None` when the path is
already present; the code instead returns `Some(last_insert_rowid)`, the
id of whatever row was inserted last on the connection.  Starting from an
empty store, inserting `/a/b.jpg` (getting id 1) and inserting the same
path again: the second call leaves the table unchanged but returns
`some 1`, not `none`. -/
theorem file_insert_duplicate_not_none :
    let st0 : Store := ⟨[], [], [], [], [], 0⟩
    let r1 := file_insert st0 "/a/b.jpg" "/a" "b.jpg" (some 1024) none
    let r2 := file_insert r1.2 "/a/b.jpg" "/a" "b.jpg" (some 1024) none
    r1.1 = some 1 ∧ r2.1 = some 1 ∧ r2.1 ≠ none ∧ r2.2 = r1.2 := by
  decide

/-- CLAIM C7 — `update_size_mtime(id, size?, mtime?)` rewrites exactly the
`size`, `modified_at`, `hash_sha512` (→ NULL) and `meta_id` (→ NULL)
columns of the rows whose id matches, leaves every other column of those
rows and every other row unchanged, and touches no other table. -/
theorem file_update_meta_frame (st : Store) (fid : Nat)
    (size : Option Int) (modifiedAt : Option String) :
    (∀ (i : Nat) (r r' : FileRow), st.files[i]? = some r →
        (file_update_meta st fid size modifiedAt).files[i]? = some r' →
        (r.id = fid →
          r' = { r with size := size, modifiedAt := modifiedAt,
                        hash := none, metaId := none }) ∧
        (r.id ≠ fid → r' = r)) ∧
    (file_update_meta st fid size modifiedAt).files.length = st.files.length ∧
    (file_update_meta st fid size modifiedAt).metas = st.metas ∧
    (file_update_meta st fid size modifiedAt).history = st.history ∧
    (file_update_meta st fid size modifiedAt).dirs = st.dirs ∧
    (file_update_meta st fid size modifiedAt).fails = st.fails := by
  refine ⟨?_, by simp [file_update_meta], rfl, rfl, rfl, rfl⟩
  intro i r r' hr hr'
  have hmap : (file_update_meta st fid size modifiedAt).files[i]? =
      (st.files[i]?).map (fun f =>
        if f.id = fid then
          { f with size := size, modifiedAt := modifiedAt, hash := none, metaId := none }
        else f) := by
    simp [file_update_meta, List.getElem?_map]
  rw [hmap, hr] at hr'
  simp only [Option.map_some', Option.some.injEq] at hr'
  constructor
  · intro hid
    rw [← hr']
    simp [hid]
  · intro hid
    rw [← hr']
    simp [hid]

/-- Concrete row used by the C7 witness. -/
def c7row : FileRow := ⟨1, "/a/x.jpg", "/a", "x.jpg", some 5, some "t0", some "h", some 7, false⟩

/-- The C7 witness row after `update_size_mtime(1, 9, "t2")`. -/
def c7row' : FileRow := ⟨1, "/a/x.jpg", "/a", "x.jpg", some 9, some "t2", none, none, false⟩

/-- Concrete store used by the C7 witness. -/
def c7st : Store := ⟨[c7row], [], [], [], [], 1⟩

/-- Closed witness for C7: applying the frame theorem to a one-row store. -/
theorem file_update_meta_frame_witness :
    c7row' = { c7row with size := some 9, modifiedAt := some "t2",
                          hash := none, metaId := none } :=
  ((file_update_meta_frame c7st 1 (some 9) (some "t2")).1 0 c7row c7row'
    (by decide) (by decide)).1 (by decide)

/-! ## `toggle_like` -/

/-- `SELECT ... FROM files WHERE id = ?1` (unique primary key, first match). -/
def findFile : List FileRow → Nat → Option FileRow
  | [], _ => none
  | f :: fs, fid => if f.id = fid then some f else findFile fs fid

/-- `SELECT ... FROM meta WHERE id = ?1`. -/
def findMeta : List MetaRow → Nat → Option MetaRow
  | [], _ => none
  | m :: ms, mid => if m.id = mid then some m else findMeta ms mid

/-- `UPDATE meta SET tags = ?1 WHERE id = ?2`. -/
def setTags (ms : List MetaRow) (mid : Nat) (tags : List String) : List MetaRow :=
  ms.map (fun m => if m.id = mid then { m with tags := tags } else m)

/-- `Db::toggle_like` (db.rs:601): read `meta_id` (a missing file or a
NULL `meta_id` both give `None` and return `false` with no write), read
and parse the tag array (missing row → `[]`), then either remove every
`"like"` and record an `unlike` history row, or push `"like"` and record
a `like` row, and finally write the tag array back. -/
def toggle_like (st : Store) (fid : Nat) : Bool × Store :=
  match (findFile st.files fid).map (·.metaId) with
  | none => (false, st)
  | some none => (false, st)
  | some (some mid) =>
    let tags := ((findMeta st.metas mid).map (·.tags)).getD []
    if "like" ∈ tags then
      let st1 := { st with history := st.history ++ [(fid, "unlike")] }
      (false, { st1 with metas := setTags st1.metas mid (tags.filter (fun t => !(t == "like"))) })
    else
      let st1 := { st with history := st.history ++ [(fid, "like")] }
      (true, { st1 with metas := setTags st1.metas mid (tags ++ ["like"]) })

theorem findMeta_setTags (ms : List MetaRow) (mid : Nat) (v : List String) :
    findMeta (setTags ms mid v) mid = (findMeta ms mid).map (fun m => { m with tags := v }) := by
  induction ms with
  | nil => rfl
  | cons m ms ih =>
    by_cases h : m.id = mid
    · simp [setTags, findMeta, h]
    · simpa [setTags, findMeta, h] using ih

/-- CLAIM C10 — on a file whose `meta_id` is NULL, `toggle_like` returns
`false` and the store (history rows included) is unchanged. -/
theorem toggle_like_no_meta (st : Store) (fid : Nat) (f : FileRow)
    (hf : findFile st.files fid = some f) (hmid : f.metaId = none) :
    toggle_like st fid = (false, st) := by
  simp [toggle_like, hf, hmid]

/-- Concrete store for the C10 witness: one file with `meta_id` NULL. -/
def c10row : FileRow := ⟨1, "/a/1.jpg", "/a", "1.jpg", none, none, none, none, false⟩

/-- Store for the C10 witness. -/
def c10st : Store := ⟨[c10row], [], [], [], [], 1⟩

/-- Closed witness for C10. -/
theorem toggle_like_no_meta_witness : toggle_like c10st 1 = (false, c10st) :=
  toggle_like_no_meta c10st 1 c10row (by decide) (by decide)

/-- Concrete store for the C4 counterexample: file 1 linked to meta 1
whose tag array already contains `"like"`. -/
def c4st : Store :=
  ⟨[⟨1, "/a/1.jpg", "/a", "1.jpg", none, none, some "h", some 1, false⟩],
   [⟨1, none, none, ["like"]⟩], [], [], [], 1⟩

/-- CLAIM C4, counterexample — on a file whose ContentMeta is already
liked, the two history rows appended by a double `toggle_like` are
(`unlike`, `like`), not (`like`, `unlike`) as the claim states. -/
theorem toggle_like_twice_order_cex :
    (findFile c4st.files 1).map (·.metaId) = some (some 1) ∧
    findMeta c4st.metas 1 = some ⟨1, none, none, ["like"]⟩ ∧
    ((toggle_like (toggle_like c4st 1).2 1).2).history = [(1, "unlike"), (1, "like")] ∧
    ((toggle_like (toggle_like c4st 1).2 1).2).history ≠ [(1, "like"), (1, "unlike")] := by
  decide

/-- CLAIM C4, amended — on a file with a linked ContentMeta, a double
`toggle_like` leaves the tag set unchanged (same members) and appends
exactly two history rows: (`like`, `unlike`) when the file was not liked
before, (`unlike`, `like`) when it was. -/
theorem toggle_like_twice (st : Store) (fid mid : Nat) (f : FileRow) (m : MetaRow)
    (hf : findFile st.files fid = some f) (hmid : f.metaId = some mid)
    (hm : findMeta st.metas mid = some m) :
    (∃ m', findMeta ((toggle_like (toggle_like st fid).2 fid).2).metas mid = some m' ∧
        ∀ t, t ∈ m'.tags ↔ t ∈ m.tags) ∧
    ((toggle_like (toggle_like st fid).2 fid).2).history =
      st.history ++
        (if "like" ∈ m.tags then [(fid, "unlike"), (fid, "like")]
         else [(fid, "like"), (fid, "unlike")]) := by
  by_cases hlike : "like" ∈ m.tags
  · have h1 : toggle_like st fid =
        (false, { st with history := st.history ++ [(fid, "unlike")],
                          metas := setTags st.metas mid
                            (m.tags.filter (fun t => !(t == "like"))) }) := by
      simp [toggle_like, hf, hmid, hm, hlike]
    have hnolike : "like" ∉ m.tags.filter (fun t => !(t == "like")) := by
      simp [List.mem_filter]
    have h2 : toggle_like (toggle_like st fid).2 fid =
        (true, { st with history := st.history ++ [(fid, "unlike"), (fid, "like")],
                         metas := setTags (setTags st.metas mid
                            (m.tags.filter (fun t => !(t == "like")))) mid
                            ((m.tags.filter (fun t => !(t == "like"))) ++ ["like"]) }) := by
      rw [h1]
      simp [toggle_like, hf, hmid, findMeta_setTags, hm, hnolike]
    rw [h2]
    refine ⟨⟨{ m with tags := (m.tags.filter (fun t => !(t == "like"))) ++ ["like"] }, ?_, ?_⟩, ?_⟩
    · simp [findMeta_setTags, hm]
    · intro t
      simp only [List.mem_append, List.mem_filter, List.mem_singleton]
      constructor
      · rintro (⟨ht, _⟩ | rfl)
        · exact ht
        · exact hlike
      · intro ht
        by_cases he : t = "like"
        · exact Or.inr he
        · exact Or.inl ⟨ht, by simp [he]⟩
    · simp [hlike]
  · have h1 : toggle_like st fid =
        (true, { st with history := st.history ++ [(fid, "like")],
                         metas := setTags st.metas mid (m.tags ++ ["like"]) }) := by
      simp [toggle_like, hf, hmid, hm, hlike]
    have hfilter : (m.tags ++ ["like"]).filter (fun t => !(t == "like")) = m.tags := by
      rw [List.filter_append]
      have : m.tags.filter (fun t => !(t == "like")) = m.tags :=
        List.filter_eq_self.mpr (fun a ha => by
          simp only [Bool.not_eq_true', beq_eq_false_iff_ne]
          rintro rfl; exact hlike ha)
      simp [this]
    have h2 : toggle_like (toggle_like st fid).2 fid =
        (false, { st with history := st.history ++ [(fid, "like"), (fid, "unlike")],
                          metas := setTags (setTags st.metas mid (m.tags ++ ["like"])) mid
                            m.tags }) := by
      rw [h1]
      simp [toggle_like, hf, hmid, findMeta_setTags, hm, hfilter]
    rw [h2]
    refine ⟨⟨{ m with tags := m.tags }, ?_, fun t => Iff.rfl⟩, ?_⟩
    · simp [findMeta_setTags, hm]
    · simp [hlike]

/-- Concrete store for the C4 witness: file 1 linked to meta 1 with tags
`["c3"]` (not yet liked). -/
def c4wst : Store :=
  ⟨[⟨1, "/a/1.jpg", "/a", "1.jpg", none, none, some "h", some 1, false⟩],
   [⟨1, none, none, ["c3"]⟩], [], [], [], 1⟩

/-- Closed witness for the amended C4. -/
theorem toggle_like_twice_witness :
    (∃ m', findMeta ((toggle_like (toggle_like c4wst 1).2 1).2).metas 1 = some m' ∧
        ∀ t, t ∈ m'.tags ↔ t ∈ (["c3"] : List String)) ∧
    ((toggle_like (toggle_like c4wst 1).2 1).2).history =
      [] ++
        (if "like" ∈ (["c3"] : List String) then [(1, "unlike"), (1, "like")]
         else [(1, "like"), (1, "unlike")]) :=
  toggle_like_twice c4wst 1 1
    ⟨1, "/a/1.jpg", "/a", "1.jpg", none, none, some "h", some 1, false⟩
    ⟨1, none, none, ["c3"]⟩ (by decide) (by decide) (by decide)

/-! ## Job queries: `next_missing_*` (db.rs:724, 737, 809)

Each SQL query is `SELECT ... WHERE <clause> ORDER BY RANDOM() LIMIT 1`;
it is modelled by the list of rows the `WHERE` clause admits, the
returned row being an arbitrary member of that list. -/

/-- SQLite `LOWER` (ASCII case folding, which `Char.toLower` matches on
ASCII; paths are compared by their ASCII extension suffixes only). -/
def lowerStr (s : String) : String :=
  String.mk (s.data.map Char.toLower)

/-- SQL `x LIKE '%suffix'` for a wildcard-free suffix. -/
def strEndsWith (s suffix : String) : Bool :=
  suffix.data.isSuffixOf s.data

/-- The extension list of the `next_missing_exif` query. -/
def imageExtsSql : List String :=
  [".jpg", ".jpeg", ".png", ".webp", ".gif", ".bmp", ".tiff"]

/-- `f.id IN (SELECT file_id FROM job_fails WHERE layer = ?)`. -/
def layerFailed (fails : List (Nat × String)) (fid : Nat) (layer : String) : Bool :=
  fails.any (fun p => p.1 == fid && p.2 == layer)

/-- `JOIN meta m ON f.meta_id = m.id ... m.width IS NULL`. -/
def linkedMetaWidthNull (st : Store) (f : FileRow) : Bool :=
  match f.metaId with
  | some mid =>
    match findMeta st.metas mid with
    | some m => m.width.isNone
    | none => false
  | none => false

/-- `JOIN meta m ON f.meta_id = m.id ... m.pnginfo IS NULL`. -/
def linkedMetaPnginfoNull (st : Store) (f : FileRow) : Bool :=
  match f.metaId with
  | some mid =>
    match findMeta st.metas mid with
    | some m => m.pnginfo.isNone
    | none => false
  | none => false

/-- Candidate rows of `Db::next_missing_hash`. -/
def next_missing_hash_cands (st : Store) : List (Nat × String) :=
  (st.files.filter (fun f =>
    f.hash.isNone && !layerFailed st.fails f.id "hash")).map (fun f => (f.id, f.path))

/-- Candidate rows of `Db::next_missing_exif`. -/
def next_missing_exif_cands (st : Store) : List (Nat × String) :=
  (st.files.filter (fun f =>
    linkedMetaWidthNull st f && !layerFailed st.fails f.id "exif" &&
      imageExtsSql.any (fun e => strEndsWith (lowerStr f.path) e))).map (fun f => (f.id, f.path))

/-- Candidate rows of `Db::next_missing_pnginfo`. -/
def next_missing_pnginfo_cands (st : Store) : List (Nat × String) :=
  (st.files.filter (fun f =>
    linkedMetaPnginfoNull st f && !layerFailed st.fails f.id "ai_basic" &&
      strEndsWith (lowerStr f.path) ".png")).map (fun f => (f.id, f.path))

theorem not_mem_fails_of_layerFailed_false {fails : List (Nat × String)} {fid : Nat}
    {layer : String} (h : layerFailed fails fid layer = false) : (fid, layer) ∉ fails := by
  intro hmem
  have : layerFailed fails fid layer = true := by
    simp only [layerFailed, List.any_eq_true]
    exact ⟨(fid, layer), hmem, by simp⟩
  simp [this] at h

/-- CLAIM C2 — any row a `next_missing` query can return is not in the
job-failure table for that layer, does not have the layer satisfied
(hash column, width, pnginfo respectively all NULL), and passes the
layer's file-type filter (image extensions for dimensions, `.png` for
generator info). -/
theorem next_missing_sound (st : Store) (fid : Nat) (path : String) :
    ((fid, path) ∈ next_missing_hash_cands st →
        (fid, "hash") ∉ st.fails ∧
        ∃ f ∈ st.files, f.id = fid ∧ f.path = path ∧ f.hash = none) ∧
    ((fid, path) ∈ next_missing_exif_cands st →
        (fid, "exif") ∉ st.fails ∧
        (∃ f ∈ st.files, f.id = fid ∧ f.path = path ∧
          ∃ mid m, f.metaId = some mid ∧ findMeta st.metas mid = some m ∧ m.width = none) ∧
        ∃ e ∈ imageExtsSql, strEndsWith (lowerStr path) e = true) ∧
    ((fid, path) ∈ next_missing_pnginfo_cands st →
        (fid, "ai_basic") ∉ st.fails ∧
        (∃ f ∈ st.files, f.id = fid ∧ f.path = path ∧
          ∃ mid m, f.metaId = some mid ∧ findMeta st.metas mid = some m ∧ m.pnginfo = none) ∧
        strEndsWith (lowerStr path) ".png" = true) := by
  refine ⟨?_, ?_, ?_⟩
  · intro hmem
    simp only [next_missing_hash_cands, List.mem_map, List.mem_filter,
      Bool.and_eq_true, Bool.not_eq_true', Option.isNone_iff_eq_none,
      Prod.mk.injEq] at hmem
    obtain ⟨f, ⟨hf, hnull, hfail⟩, hid, hpath⟩ := hmem
    subst hid; subst hpath
    exact ⟨not_mem_fails_of_layerFailed_false hfail, f, hf, rfl, rfl, hnull⟩
  · intro hmem
    simp only [next_missing_exif_cands, List.mem_map, List.mem_filter,
      Bool.and_eq_true, Bool.not_eq_true', Prod.mk.injEq] at hmem
    obtain ⟨f, ⟨hf, ⟨hwidth, hfail⟩, hext⟩, hid, hpath⟩ := hmem
    subst hid; subst hpath
    refine ⟨not_mem_fails_of_layerFailed_false hfail, ⟨f, hf, rfl, rfl, ?_⟩, ?_⟩
    · cases hmid : f.metaId with
      | none => simp [linkedMetaWidthNull, hmid] at hwidth
      | some mid =>
        cases hm : findMeta st.metas mid with
        | none => simp [linkedMetaWidthNull, hmid, hm] at hwidth
        | some m =>
          simp only [linkedMetaWidthNull, hmid, hm, Option.isNone_iff_eq_none] at hwidth
          exact ⟨mid, m, rfl, hm, hwidth⟩
    · simpa only [List.any_eq_true] using hext
  · intro hmem
    simp only [next_missing_pnginfo_cands, List.mem_map, List.mem_filter,
      Bool.and_eq_true, Bool.not_eq_true', Prod.mk.injEq] at hmem
    obtain ⟨f, ⟨hf, ⟨hpng, hfail⟩, hext⟩, hid, hpath⟩ := hmem
    subst hid; subst hpath
    refine ⟨not_mem_fails_of_layerFailed_false hfail, ⟨f, hf, rfl, rfl, ?_⟩, hext⟩
    cases hmid : f.metaId with
    | none => simp [linkedMetaPnginfoNull, hmid] at hpng
    | some mid =>
      cases hm : findMeta st.metas mid with
      | none => simp [linkedMetaPnginfoNull, hmid, hm] at hpng
      | some m =>
        simp only [linkedMetaPnginfoNull, hmid, hm, Option.isNone_iff_eq_none] at hpng
        exact ⟨mid, m, rfl, hm, hpng⟩

/-- Concrete store for the C2 witness: file 1 missing its hash, file 2 a
jpeg missing dimensions, file 3 a png missing generator info; a stale
failure row for an unrelated file. -/
def c2st : Store :=
  ⟨[⟨1, "/m/a.mp4", "/m", "a.mp4", none, none, none, none, false⟩,
    ⟨2, "/m/b.JPG", "/m", "b.JPG", none, none, some "h2", some 2, false⟩,
    ⟨3, "/m/c.png", "/m", "c.png", none, none, some "h3", some 3, false⟩],
   [⟨2, none, some "info", []⟩, ⟨3, some 640, none, []⟩],
   [], [], [(9, "hash")], 3⟩

/-- Closed witness for C2: the three soundness implications applied to
concrete members of each candidate list. -/
theorem next_missing_sound_witness :
    ((1, "hash") ∉ c2st.fails ∧
        ∃ f ∈ c2st.files, f.id = 1 ∧ f.path = "/m/a.mp4" ∧ f.hash = none) ∧
    ((2, "exif") ∉ c2st.fails ∧
        (∃ f ∈ c2st.files, f.id = 2 ∧ f.path = "/m/b.JPG" ∧
          ∃ mid m, f.metaId = some mid ∧ findMeta c2st.metas mid = some m ∧ m.width = none) ∧
        ∃ e ∈ imageExtsSql, strEndsWith (lowerStr "/m/b.JPG") e = true) ∧
    ((3, "ai_basic") ∉ c2st.fails ∧
        (∃ f ∈ c2st.files, f.id = 3 ∧ f.path = "/m/c.png" ∧
          ∃ mid m, f.metaId = some mid ∧ findMeta c2st.metas mid = some m ∧ m.pnginfo = none) ∧
        strEndsWith (lowerStr "/m/c.png") ".png" = true) :=
  ⟨(next_missing_sound c2st 1 "/m/a.mp4").1 (by decide),
   (next_missing_sound c2st 2 "/m/b.JPG").2.1 (by decide),
   (next_missing_sound c2st 3 "/m/c.png").2.2 (by decide)⟩

/-! ## Hash layer: `process_hash` (jobs.rs:255)

The SHA-512 primitive is an external library call; the claim is about
which bytes are fed to it and how the digest is formatted, so the
embedding is parameterised by the digest function `sha`.  File content is
the list of its bytes; the xattr fast path is the `cached` argument
(`none` when no `user.lv.sha512` attribute exists). -/

/-- `jobs.rs:252`: `const FAST_HASH_THRESHOLD: u64 = 2 * 1024 * 1024`. -/
def FAST_HASH_THRESHOLD : Nat := 2 * 1024 * 1024

/-- `jobs.rs:253`: `const FINGERPRINT_CHUNK: usize = 64 * 1024`. -/
def FINGERPRINT_CHUNK : Nat := 64 * 1024

/-- `u64::to_le_bytes`: the eight little-endian bytes of the size. -/
def leBytes64 (n : Nat) : List Nat :=
  (List.range 8).map (fun i => n / 256 ^ i % 256)

/-- One lowercase hex digit. -/
def hexDigit (n : Nat) : Char :=
  if n < 10 then Char.ofNat (48 + n) else Char.ofNat (87 + n)

/-- One byte as two lowercase hex digits (`{:02x}`). -/
def hexByte (b : Nat) : List Char :=
  [hexDigit (b / 16 % 16), hexDigit (b % 16)]

/-- Rust's `{:x}` on a digest: every byte as two lowercase hex digits. -/
def hexStr (bs : List Nat) : String :=
  String.mk (bs.map hexByte).flatten

/-- `process_hash` (jobs.rs:255), the produced hash string: xattr cache
hit returns the cached value; otherwise files of more than
`FAST_HASH_THRESHOLD` bytes hash `head ++ tail ++ size_le_bytes` where
`head` is the first `min(FINGERPRINT_CHUNK, size)` bytes and `tail` the
last `FINGERPRINT_CHUNK` bytes when `size > FINGERPRINT_CHUNK * 2`,
prefixing the hex digest with `"fp:"`; smaller files hash the full
content. -/
def process_hash (cached : Option String) (sha : List Nat → List Nat)
    (content : List Nat) : String :=
  match cached with
  | some h => h
  | none =>
    let size := content.length
    if size > FAST_HASH_THRESHOLD then
      let head := content.take (min FINGERPRINT_CHUNK size)
      let tail :=
        if size > FINGERPRINT_CHUNK * 2 then content.drop (size - FINGERPRINT_CHUNK) else []
      "fp:" ++ hexStr (sha (head ++ tail ++ leBytes64 size))
    else
      hexStr (sha content)

/-- The hash contract in the spec's words: files of at most 2 MiB get the
lowercase-hex SHA-512 of the full content; larger files get `"fp:"` plus
the hex SHA-512 of `head_chunk || tail_chunk || little_endian_u64(size)`,
`head_chunk` being `min(64 KiB, size)` bytes from offset 0 and
`tail_chunk` the last 64 KiB, present only if `size > 2 * chunk_size`. -/
def spec_hash (sha : List Nat → List Nat) (content : List Nat) : String :=
  let size := content.length
  if size ≤ 2 * 1024 * 1024 then
    hexStr (sha content)
  else
    let headChunk := content.take (min (64 * 1024) size)
    let tailChunk :=
      if size > 2 * (64 * 1024) then content.drop (size - 64 * 1024) else []
    "fp:" ++ hexStr (sha (headChunk ++ tailChunk ++ leBytes64 size))

/-- CLAIM C5 — with no cached xattr, `process_hash` produces exactly the
hash the specification describes, for every digest function and every
file content. -/
theorem process_hash_eq_spec (sha : List Nat → List Nat) (content : List Nat) :
    process_hash none sha content = spec_hash sha content := by
  by_cases h : content.length ≤ 2 * 1024 * 1024
  · have h2 : ¬ content.length > FAST_HASH_THRESHOLD := by
      simpa [FAST_HASH_THRESHOLD] using not_lt.mpr h
    simp [process_hash, spec_hash, h, h2]
  · have h2 : content.length > FAST_HASH_THRESHOLD := by
      simpa [FAST_HASH_THRESHOLD] using lt_of_not_ge h
    have h3 : content.length > FINGERPRINT_CHUNK * 2 := by
      refine lt_trans (by norm_num [FINGERPRINT_CHUNK, FAST_HASH_THRESHOLD]) h2
    have h4 : content.length > 2 * (64 * 1024) := by
      simpa [FINGERPRINT_CHUNK, Nat.mul_comm] using h3
    simp [process_hash, spec_hash, h, h2, h3, h4, FINGERPRINT_CHUNK]

/-! ## Job stats: `JobStats::record_fail` (jobs.rs:67)

`record_fail` stores `&err[..err.len().min(120)]` — a BYTE slice of the
error string.  Rust strings are UTF-8 and byte-slicing a `str` panics
when the end index is not a character boundary.  The embedding works on
the character list of the string; `none` models the panic. -/

/-- UTF-8 byte length of one character. -/
def utf8Len (c : Char) : Nat :=
  if c.toNat < 128 then 1
  else if c.toNat < 2048 then 2
  else if c.toNat < 65536 then 3
  else 4

/-- UTF-8 byte length of a string (Rust `str::len`). -/
def byteLen (cs : List Char) : Nat :=
  (cs.map utf8Len).sum

/-- Rust `&s[..k]` for `k ≤ s.len()`: the characters making up the first
`k` bytes, or `none` (panic) when byte offset `k` falls inside a
character. -/
def sliceTo : List Char → Nat → Option (List Char)
  | _, 0 => some []
  | [], _ + 1 => none
  | c :: rest, k + 1 =>
    if utf8Len c ≤ k + 1 then (sliceTo rest (k + 1 - utf8Len c)).map (c :: ·) else none

theorem utf8Len_pos (c : Char) : 1 ≤ utf8Len c := by
  unfold utf8Len
  split
  · norm_num
  · split
    · norm_num
    · split <;> norm_num

/-- `JobStats::record_fail` (jobs.rs:67), the stored `last_error`:
`err[..err.len().min(120)]`, `none` when the byte slice panics. -/
def record_fail_lastError (e : List Char) : Option (List Char) :=
  sliceTo e (min (byteLen e) 120)

theorem sliceTo_byteLen (cs : List Char) : sliceTo cs (byteLen cs) = some cs := by
  induction cs with
  | nil => rfl
  | cons c rest ih =>
    have hpos : 1 ≤ utf8Len c := utf8Len_pos c
    have hlen : byteLen (c :: rest) = utf8Len c + byteLen rest := by
      simp [byteLen]
    rw [hlen]
    have hk : utf8Len c + byteLen rest = (utf8Len c + byteLen rest - 1) + 1 := by omega
    rw [hk]
    rw [sliceTo]
    have hle : utf8Len c ≤ utf8Len c + byteLen rest - 1 + 1 := by omega
    rw [if_pos hle]
    have heq : utf8Len c + byteLen rest - 1 + 1 - utf8Len c = byteLen rest := by omega
    rw [heq, ih]
    rfl

theorem sliceTo_boundary (cs : List Char) (n : Nat) (hn : n ≤ cs.length) :
    sliceTo cs (byteLen (cs.take n)) = some (cs.take n) := by
  induction cs generalizing n with
  | nil => simpa using sliceTo_byteLen []
  | cons c rest ih =>
    cases n with
    | zero => simp [byteLen, sliceTo]
    | succ m =>
      have hm : m ≤ rest.length := by simpa using hn
      have hpos : 1 ≤ utf8Len c := utf8Len_pos c
      have hlen : byteLen ((c :: rest).take (m + 1)) = utf8Len c + byteLen (rest.take m) := by
        simp [byteLen]
      rw [hlen]
      have hk : utf8Len c + byteLen (rest.take m) =
          (utf8Len c + byteLen (rest.take m) - 1) + 1 := by omega
      rw [hk]
      rw [sliceTo]
      have hle : utf8Len c ≤ utf8Len c + byteLen (rest.take m) - 1 + 1 := by omega
      rw [if_pos hle]
      have heq : utf8Len c + byteLen (rest.take m) - 1 + 1 - utf8Len c = byteLen (rest.take m) := by
        omega
      rw [heq, ih m hm]
      simp

theorem sliceTo_some_spec (cs : List Char) (k : Nat) (l : List Char)
    (h : sliceTo cs k = some l) : byteLen l = k ∧ cs.take l.length = l := by
  induction cs generalizing k l with
  | nil =>
    cases k with
    | zero =>
      simp only [sliceTo] at h
      cases h
      simp [byteLen]
    | succ m => simp [sliceTo] at h
  | cons c rest ih =>
    cases k with
    | zero =>
      simp only [sliceTo] at h
      cases h
      simp [byteLen]
    | succ m =>
      rw [sliceTo] at h
      by_cases hle : utf8Len c ≤ m + 1
      · rw [if_pos hle] at h
        cases hrec : sliceTo rest (m + 1 - utf8Len c) with
        | none => rw [hrec] at h; simp at h
        | some l' =>
          rw [hrec] at h
          simp only [Option.map_some', Option.some.injEq] at h
          obtain ⟨hb, ht⟩ := ih (m + 1 - utf8Len c) l' hrec
          subst h
          constructor
          · simp only [byteLen, List.map_cons, List.sum_cons]
            have : byteLen l' = m + 1 - utf8Len c := hb
            simp only [byteLen] at this
            omega
          · simpa using ht
      · rw [if_neg hle] at h
        simp at h

/-- Concrete input for the C9 counterexample: 119 ASCII characters
followed by one two-byte character, 121 UTF-8 bytes in total, so byte
offset 120 falls inside the final character. -/
def c9cex : List Char := List.replicate 119 'a' ++ ['é']

set_option maxRecDepth 4000 in
/-- CLAIM C9, counterexample — on `c9cex` the byte slice
`&err[..min(len, 120)]` panics (offset 120 is not a character boundary),
so `record_fail` does not succeed, let alone store a 120-character
prefix. -/
theorem record_fail_cex : record_fail_lastError c9cex = none := by decide

/-- CLAIM C9, amended — `record_fail` truncates `last_error` to at most
120 BYTES of the error's UTF-8 form, not 120 characters: an error of at
most 120 bytes is stored intact, and for a longer error the call stores
the 120-byte prefix exactly when byte offset 120 is a character boundary
and panics otherwise. -/
theorem record_fail_truncation (e : List Char) :
    (byteLen e ≤ 120 → record_fail_lastError e = some e) ∧
    (120 < byteLen e →
      ((∃ n, n ≤ e.length ∧ byteLen (e.take n) = 120) ↔
        ∃ l, record_fail_lastError e = some l ∧ byteLen l = 120 ∧ e.take l.length = l)) := by
  constructor
  · intro h
    have : min (byteLen e) 120 = byteLen e := Nat.min_eq_left h
    rw [record_fail_lastError, this, sliceTo_byteLen]
  · intro h
    have hmin : min (byteLen e) 120 = 120 := Nat.min_eq_right (Nat.le_of_lt h)
    constructor
    · rintro ⟨n, hn, hb⟩
      refine ⟨e.take n, ?_, ?_, ?_⟩
      · rw [record_fail_lastError, hmin, ← hb, sliceTo_boundary e n hn]
      · rw [← hb]
      · have := sliceTo_some_spec e 120 (e.take n)
          (by rw [← hb, sliceTo_boundary e n hn])
        exact this.2
    · rintro ⟨l, hl, hb, ht⟩
      rw [record_fail_lastError, hmin] at hl
      obtain ⟨hbl, htake⟩ := sliceTo_some_spec e 120 l hl
      refine ⟨l.length, ?_, ?_⟩
      · by_contra hlen
        push_neg at hlen
        have he : e.take l.length = e := List.take_of_length_le (Nat.le_of_lt hlen)
        have hle : l = e := by rw [← htake, he]
        rw [hle] at hbl
        omega
      · rw [htake]; exact hbl

/-- Closed witness for the amended C9: a two-character error is stored
intact. -/
theorem record_fail_truncation_witness :
    record_fail_lastError ['h', 'i'] = some ['h', 'i'] :=
  (record_fail_truncation ['h', 'i']).1 (by decide)

/-! ## Texture cache: `TextureCache::upload` (preload.rs:74)

`map` is the path-keyed `HashMap` (association list, unique keys), `order`
the LRU `VecDeque` (front = oldest).  GL calls are recorded as an event
trace; `GenTextures` is modelled by the caller-supplied fresh handle
`tex`.  The eviction `while` loop recurses on `order`; when `order` is
exhausted with the map still at capacity the Rust loop spins forever,
modelled as `none`. -/

/-- `preload.rs:39`: cached GL texture info. -/
structure TexInfo where
  gl_id : Nat
  width : Nat
  height : Nat
  deriving Repr, DecidableEq

/-- `preload.rs:46`: the LRU texture cache. -/
structure TextureCache where
  capacity : Nat
  map : List (String × TexInfo)
  order : List String
  deriving Repr, DecidableEq

/-- GL side effects of `upload`, in program order. -/
inductive GlEvent where
  | destroy (id : Nat)
  | create (id : Nat)
  | insert (path : String) (id : Nat)
  deriving Repr, DecidableEq

/-- `HashMap::get` / `contains_key`. -/
def lookupTex : List (String × TexInfo) → String → Option TexInfo
  | [], _ => none
  | kv :: rest, p => if kv.1 = p then some kv.2 else lookupTex rest p

/-- `HashMap::remove` (unique keys: drops the entry). -/
def removeTex : List (String × TexInfo) → String → List (String × TexInfo)
  | [], _ => []
  | kv :: rest, p => if kv.1 = p then rest else kv :: removeTex rest p

/-- `Vec`-style removal of the first occurrence
(`iter().position` + `remove`). -/
def eraseFirst : List String → String → List String
  | [], _ => []
  | x :: xs, p => if x = p then xs else x :: eraseFirst xs p

/-- `TextureCache::touch` (preload.rs:128): move a path to the back of
the LRU. -/
def touch (order : List String) (p : String) : List String :=
  eraseFirst order p ++ [p]

/-- The `while self.map.len() >= self.capacity` eviction loop of `upload`
(preload.rs:82): pop the front of the LRU, remove it from the map and
destroy its texture, until below capacity.  `none` models the loop never
terminating (empty queue, map still at capacity). -/
def evict (cap : Nat) (order : List String) (m : List (String × TexInfo)) :
    Option (List String × List (String × TexInfo) × List GlEvent) :=
  if m.length < cap then some (order, m, [])
  else
    match order with
    | [] => none
    | p :: rest =>
      match lookupTex m p with
      | some info =>
        (evict cap rest (removeTex m p)).map
          (fun r => (r.1, r.2.1, GlEvent.destroy info.gl_id :: r.2.2))
      | none => evict cap rest m

/-- `TextureCache::upload` (preload.rs:74): an already-cached path is
only touched; otherwise evict down below capacity, create the GL texture
and insert it. -/
def upload (c : TextureCache) (path : String) (w h tex : Nat) :
    Option (TextureCache × List GlEvent) :=
  if (lookupTex c.map path).isSome then
    some ({ c with order := touch c.order path }, [])
  else
    match evict c.capacity c.order c.map with
    | none => none
    | some (order', map', evs) =>
      some ({ c with map := map' ++ [(path, ⟨tex, w, h⟩)], order := order' ++ [path] },
        evs ++ [GlEvent.create tex, GlEvent.insert path tex])

/-- One argument tuple of an `upload` call. -/
structure UploadOp where
  path : String
  w : Nat
  h : Nat
  tex : Nat
  deriving Repr, DecidableEq

/-- A sequence of uploads against a fresh cache of capacity `cap`
(`TextureCache::new(cap)` starts empty). -/
def runUploads (cap : Nat) (ops : List UploadOp) : Option TextureCache :=
  ops.foldlM (fun c op => (upload c op.path op.w op.h op.tex).map Prod.fst) ⟨cap, [], []⟩

theorem evict_stop (cap : Nat) (order : List String) (m : List (String × TexInfo))
    (h : m.length < cap) : evict cap order m = some (order, m, []) := by
  cases order with
  | nil => rw [evict, if_pos h]
  | cons p rest => rw [evict, if_pos h]

theorem evict_length_lt (cap : Nat) (order : List String) (m : List (String × TexInfo))
    (r : List String × List (String × TexInfo) × List GlEvent)
    (h : evict cap order m = some r) : r.2.1.length < cap := by
  induction order generalizing m r with
  | nil =>
    rw [evict] at h
    by_cases hlt : m.length < cap
    · rw [if_pos hlt] at h
      cases h
      exact hlt
    · rw [if_neg hlt] at h
      cases h
  | cons p rest ih =>
    rw [evict] at h
    by_cases hlt : m.length < cap
    · rw [if_pos hlt] at h
      cases h
      exact hlt
    · rw [if_neg hlt] at h
      cases hl : lookupTex m p with
      | some info =>
        rw [hl] at h
        cases hrec : evict cap rest (removeTex m p) with
        | none => rw [hrec] at h; cases h
        | some r' =>
          rw [hrec] at h
          simp only [Option.map_some', Option.some.injEq] at h
          have := ih (removeTex m p) r' hrec
          rw [← h]
          exact this
      | none =>
        rw [hl] at h
        exact ih m r h

theorem upload_preserves_bound (c : TextureCache) (path : String) (w hh tex : Nat)
    (c' : TextureCache) (evs : List GlEvent)
    (hc : c.map.length ≤ c.capacity)
    (h : upload c path w hh tex = some (c', evs)) :
    c'.map.length ≤ c'.capacity ∧ c'.capacity = c.capacity := by
  rw [upload] at h
  by_cases hcached : (lookupTex c.map path).isSome
  · rw [if_pos hcached] at h
    cases h
    exact ⟨hc, rfl⟩
  · rw [if_neg hcached] at h
    cases hev : evict c.capacity c.order c.map with
    | none => rw [hev] at h; cases h
    | some r =>
      rw [hev] at h
      obtain ⟨o', m', evs'⟩ := r
      simp only [Option.some.injEq, Prod.mk.injEq] at h
      have hlt : m'.length < c.capacity := evict_length_lt _ _ _ _ hev
      rw [← h.1]
      constructor
      · show (m' ++ [(path, (⟨tex, w, hh⟩ : TexInfo))]).length ≤ c.capacity
        simp only [List.length_append, List.length_cons, List.length_nil]
        omega
      · rfl

theorem runUploads_aux (ops : List UploadOp) (c0 c : TextureCache)
    (h0 : c0.map.length ≤ c0.capacity)
    (h : ops.foldlM (fun c op => (upload c op.path op.w op.h op.tex).map Prod.fst) c0 = some c) :
    c.map.length ≤ c.capacity ∧ c.capacity = c0.capacity := by
  induction ops generalizing c0 with
  | nil =>
    simp only [List.foldlM_nil] at h
    cases h
    exact ⟨h0, rfl⟩
  | cons op rest ih =>
    simp only [List.foldlM_cons] at h
    cases hu : upload c0 op.path op.w op.h op.tex with
    | none => rw [hu] at h; simp at h
    | some r =>
      rw [hu] at h
      obtain ⟨c1, evs⟩ := r
      simp only [Option.map_some'] at h
      have hb := upload_preserves_bound c0 op.path op.w op.h op.tex c1 evs h0 hu
      have := ih c1 hb.1 h
      exact ⟨this.1, this.2.trans hb.2⟩

theorem lookupTex_length_pos (m : List (String × TexInfo)) (p : String) (info : TexInfo)
    (h : lookupTex m p = some info) : 1 ≤ m.length := by
  cases m with
  | nil => simp [lookupTex] at h
  | cons kv rest => simp

theorem removeTex_length (m : List (String × TexInfo)) (p : String) (info : TexInfo)
    (h : lookupTex m p = some info) : (removeTex m p).length = m.length - 1 := by
  induction m with
  | nil => simp [lookupTex] at h
  | cons kv rest ih =>
    by_cases he : kv.1 = p
    · simp [removeTex, he]
    · rw [lookupTex, if_neg he] at h
      rw [removeTex, if_neg he]
      have hr := ih h
      have := lookupTex_length_pos rest p info h
      simp only [List.length_cons, hr]
      omega

/-- CLAIM C6 — (1) any sequence of uploads against a fresh cache of
capacity `C` leaves at most `C` textures cached; (2) uploading a new path
into a full cache pops the LRU victim and destroys its GL handle before
the new texture is created and inserted. -/
theorem texture_cache_lru :
    (∀ (cap : Nat) (ops : List UploadOp) (c : TextureCache),
      runUploads cap ops = some c → c.map.length ≤ cap) ∧
    (∀ (c : TextureCache) (path v : String) (w hh tex : Nat) (info : TexInfo) (rest : List String),
      c.map.length = c.capacity →
      c.order = v :: rest →
      lookupTex c.map v = some info →
      lookupTex c.map path = none →
      upload c path w hh tex =
        some ({ c with map := removeTex c.map v ++ [(path, ⟨tex, w, hh⟩)],
                       order := rest ++ [path] },
          [GlEvent.destroy info.gl_id, GlEvent.create tex, GlEvent.insert path tex])) := by
  constructor
  · intro cap ops c h
    have hb := runUploads_aux ops ⟨cap, [], []⟩ c (by simp) h
    have h2 : c.capacity = cap := hb.2
    rw [← h2]
    exact hb.1
  · intro c path v w hh tex info rest hfull horder hv hpath
    have hcap1 : 1 ≤ c.capacity := hfull ▸ lookupTex_length_pos c.map v info hv
    have hlen : (removeTex c.map v).length = c.capacity - 1 :=
      hfull ▸ removeTex_length c.map v info hv
    rw [upload, if_neg (by simp [hpath])]
    have hev : evict c.capacity c.order c.map =
        some (rest, removeTex c.map v, [GlEvent.destroy info.gl_id]) := by
      rw [horder, evict, if_neg (by omega), hv,
        evict_stop c.capacity rest (removeTex c.map v) (by omega)]
      rfl
    rw [hev]
    rfl

/-- Concrete cache states for the C6 witness: capacity 1, one cached
texture, then an upload of a second distinct path. -/
def c6full : TextureCache := ⟨1, [("a.jpg", ⟨7, 10, 10⟩)], ["a.jpg"]⟩

/-- Closed witness for C6: both halves of the theorem applied at
concrete inputs. -/
theorem texture_cache_lru_witness :
    (⟨1, [("b.jpg", ⟨8, 20, 20⟩)], ["b.jpg"]⟩ : TextureCache).map.length ≤ 1 ∧
    upload c6full "b.jpg" 20 20 8 =
      some ({ c6full with map := removeTex c6full.map "a.jpg" ++ [("b.jpg", ⟨8, 20, 20⟩)],
                          order := [] ++ ["b.jpg"] },
        [GlEvent.destroy 7, GlEvent.create 8, GlEvent.insert "b.jpg" 8]) :=
  ⟨texture_cache_lru.1 1 [⟨"a.jpg", 10, 10, 7⟩, ⟨"b.jpg", 20, 20, 8⟩]
      ⟨1, [("b.jpg", ⟨8, 20, 20⟩)], ["b.jpg"]⟩ (by decide),
   texture_cache_lru.2 c6full "b.jpg" "a.jpg" 20 20 8 ⟨7, 10, 10⟩ []
     (by decide) (by decide) (by decide) (by decide)⟩

/-! ## Video debounce (main.rs:1185, 1228)

Per frame, the UI loop first runs the display step (which, for a video
under the cursor, only sets `pending_video = Some((path, now()))`; for an
image it clears `pending_video`; for a missing or unsupported file it
leaves it alone) and then the debounce step, which calls
`mpv_loadfile_async` and clears `pending_video` exactly when
`now - t0 >= VIDEO_DEBOUNCE_MS` (150, main.rs:657).  Times are
milliseconds; `now - t0 >= 150` on monotone clock readings is
`t0 + 150 ≤ now`. -/

/-- What the display step did this frame for `pending_video`: nothing
(`idle`: cursor unchanged), landed on an image (`image`), landed on a
missing/unsupported file (`other`), or landed on a video (`video p`). -/
inductive Nav where
  | idle
  | image
  | other
  | video (p : String)
  deriving Repr, DecidableEq

/-- One frame of the UI loop: the display-step outcome and the clock. -/
structure Fr where
  nav : Nav
  now : Nat
  deriving Repr, DecidableEq

/-- Effect of the display step on `pending_video` (main.rs:1133, 1203). -/
def stepNav (pend : Option (String × Nat)) (f : Fr) : Option (String × Nat) :=
  match f.nav with
  | Nav.video p => some (p, f.now)
  | Nav.image => none
  | _ => pend

/-- The debounce block (main.rs:1228): fire the deferred load and clear
the pending entry once 150 ms have elapsed.  Returns (new pending,
load issued this frame). -/
def stepDebounce (pend : Option (String × Nat)) (now : Nat) :
    Option (String × Nat) × Option String :=
  match pend with
  | some (p, t0) => if t0 + 150 ≤ now then (none, some p) else (some (p, t0), none)
  | none => (none, none)

/-- One frame: display step, then debounce. -/
def step (pend : Option (String × Nat)) (f : Fr) : Option (String × Nat) × Option String :=
  stepDebounce (stepNav pend f) f.now

/-- The loads issued over a frame sequence, tagged with the frame index. -/
def loads : Option (String × Nat) → List Fr → List (Nat × String)
  | _, [] => []
  | pend, f :: rest =>
    (match (step pend f).2 with | some p => [(0, p)] | none => []) ++
      (loads (step pend f).1 rest).map (fun kp => (kp.1 + 1, kp.2))

theorem step_fire (pend : Option (String × Nat)) (f : Fr) (p : String)
    (h : (step pend f).2 = some p) :
    ∃ t0, stepNav pend f = some (p, t0) ∧ t0 + 150 ≤ f.now := by
  rw [step] at h
  cases hn : stepNav pend f with
  | none => rw [hn] at h; simp [stepDebounce] at h
  | some q =>
    obtain ⟨q1, t0⟩ := q
    rw [hn] at h
    rw [stepDebounce] at h
    by_cases ht : t0 + 150 ≤ f.now
    · rw [if_pos ht] at h
      simp only [Option.some.injEq] at h
      subst h
      exact ⟨t0, rfl, ht⟩
    · rw [if_neg ht] at h
      simp at h

theorem step_keep (pend : Option (String × Nat)) (f : Fr) (p : String) (t0 : Nat)
    (h : (step pend f).1 = some (p, t0)) :
    stepNav pend f = some (p, t0) ∧ ¬ t0 + 150 ≤ f.now := by
  rw [step] at h
  cases hn : stepNav pend f with
  | none => rw [hn] at h; simp [stepDebounce] at h
  | some q =>
    obtain ⟨q1, s⟩ := q
    rw [hn] at h
    rw [stepDebounce] at h
    by_cases ht : s + 150 ≤ f.now
    · rw [if_pos ht] at h
      simp at h
    · rw [if_neg ht] at h
      simp only [Option.some.injEq, Prod.mk.injEq] at h
      obtain ⟨h1, h2⟩ := h
      subst h1; subst h2
      exact ⟨rfl, ht⟩

theorem loads_provenance (fs : List Fr) (pend0 : Option (String × Nat)) (k : Nat) (p : String)
    (h : (k, p) ∈ loads pend0 fs) :
    (∃ i fi fk, fs[i]? = some fi ∧ fs[k]? = some fk ∧ i ≤ k ∧
      fi.nav = Nav.video p ∧ fi.now + 150 ≤ fk.now ∧
      ∀ j fj, i < j → j ≤ k → fs[j]? = some fj →
        (fj.nav = Nav.idle ∨ fj.nav = Nav.other)) ∨
    (∃ t0 fk, pend0 = some (p, t0) ∧ fs[k]? = some fk ∧ t0 + 150 ≤ fk.now ∧
      ∀ j fj, j ≤ k → fs[j]? = some fj →
        (fj.nav = Nav.idle ∨ fj.nav = Nav.other)) := by
  induction fs generalizing pend0 k with
  | nil => simp [loads] at h
  | cons f rest ih =>
    rw [loads] at h
    rcases List.mem_append.mp h with hfire | hlater
    · -- load issued at frame 0
      cases hld : (step pend0 f).2 with
      | none => rw [hld] at hfire; simp at hfire
      | some q =>
        rw [hld] at hfire
        simp only [List.mem_singleton, Prod.mk.injEq] at hfire
        obtain ⟨hk, hp⟩ := hfire
        subst hk; subst hp
        obtain ⟨t0, hn, ht⟩ := step_fire pend0 f p hld
        cases hnav : f.nav with
        | video q2 =>
          simp only [stepNav, hnav, Option.some.injEq, Prod.mk.injEq] at hn
          obtain ⟨h1, h2⟩ := hn
          rw [← h2] at ht
          omega
        | image =>
          simp [stepNav, hnav] at hn
        | idle =>
          simp only [stepNav, hnav] at hn
          refine Or.inr ⟨t0, f, hn, by simp, ht, ?_⟩
          intro j fj hj hget
          interval_cases j
          simp only [List.getElem?_cons_zero, Option.some.injEq] at hget
          subst hget
          exact Or.inl hnav
        | other =>
          simp only [stepNav, hnav] at hn
          refine Or.inr ⟨t0, f, hn, by simp, ht, ?_⟩
          intro j fj hj hget
          interval_cases j
          simp only [List.getElem?_cons_zero, Option.some.injEq] at hget
          subst hget
          exact Or.inr hnav
    · -- load issued at a later frame
      rcases List.mem_map.mp hlater with ⟨⟨k0, p0⟩, hmem, heq⟩
      simp only [Prod.mk.injEq] at heq
      obtain ⟨hk, hp⟩ := heq
      subst hk; subst hp
      rcases ih (step pend0 f).1 k0 hmem with
        ⟨i, fi, fk, hi, hkk, hik, hnav, htime, hmid⟩ | ⟨t0, fk, hpend, hkk, htime, hall⟩
      · refine Or.inl ⟨i + 1, fi, fk, by simpa using hi, by simpa using hkk, by omega,
          hnav, htime, ?_⟩
        intro j fj hj1 hj2 hget
        cases j with
        | zero => omega
        | succ j0 =>
          rw [List.getElem?_cons_succ] at hget
          exact hmid j0 fj (by omega) (by omega) hget
      · -- provenance crosses this frame's surviving pending entry
        obtain ⟨hn, hnot⟩ := step_keep pend0 f p0 t0 hpend
        cases hnav : f.nav with
        | video q2 =>
          simp only [stepNav, hnav, Option.some.injEq, Prod.mk.injEq] at hn
          obtain ⟨h1, h2⟩ := hn
          subst h1
          refine Or.inl ⟨0, f, fk, by simp, by simpa using hkk, by omega, hnav, ?_, ?_⟩
          · rw [h2]; exact htime
          · intro j fj hj1 hj2 hget
            cases j with
            | zero => omega
            | succ j0 =>
              rw [List.getElem?_cons_succ] at hget
              exact hall j0 fj (by omega) hget
        | image =>
          simp [stepNav, hnav] at hn
        | idle =>
          simp only [stepNav, hnav] at hn
          refine Or.inr ⟨t0, fk, hn, by simpa using hkk, htime, ?_⟩
          intro j fj hj hget
          cases j with
          | zero =>
            simp only [List.getElem?_cons_zero, Option.some.injEq] at hget
            subst hget
            exact Or.inl hnav
          | succ j0 =>
            rw [List.getElem?_cons_succ] at hget
            exact hall j0 fj (by omega) hget
        | other =>
          simp only [stepNav, hnav] at hn
          refine Or.inr ⟨t0, fk, hn, by simpa using hkk, htime, ?_⟩
          intro j fj hj hget
          cases j with
          | zero =>
            simp only [List.getElem?_cons_zero, Option.some.injEq] at hget
            subst hget
            exact Or.inr hnav
          | succ j0 =>
            rw [List.getElem?_cons_succ] at hget
            exact hall j0 fj (by omega) hget

/-- CLAIM C8 — (1) landing on a video only records the pending entry with
the frame's clock and issues no load that frame (so a later video
navigation simply replaces the entry); (2) a pending entry at least
150 ms old fires the load and clears; (3) starting with nothing pending,
every load issued over any frame sequence traces back to the most recent
video navigation: some frame `i` navigated to that video, every frame
after `i` up to the loading frame `k` left the pending entry alone, and
at least 150 ms separate the two frames.  In particular a pending video
superseded before 150 ms elapse is never loaded. -/
theorem video_debounce :
    (∀ (pend : Option (String × Nat)) (f : Fr) (p : String),
      f.nav = Nav.video p → step pend f = (some (p, f.now), none)) ∧
    (∀ (p : String) (t0 now : Nat),
      t0 + 150 ≤ now → stepDebounce (some (p, t0)) now = (none, some p)) ∧
    (∀ (fs : List Fr) (k : Nat) (p : String), (k, p) ∈ loads none fs →
      ∃ i fi fk, fs[i]? = some fi ∧ fs[k]? = some fk ∧ i ≤ k ∧
        fi.nav = Nav.video p ∧ fi.now + 150 ≤ fk.now ∧
        ∀ j fj, i < j → j ≤ k → fs[j]? = some fj →
          (fj.nav = Nav.idle ∨ fj.nav = Nav.other)) := by
  refine ⟨?_, ?_, ?_⟩
  · intro pend f p hnav
    rw [step, stepNav, hnav, stepDebounce, if_neg (by omega)]
  · intro p t0 now ht
    rw [stepDebounce, if_pos ht]
  · intro fs k p h
    rcases loads_provenance fs none k p h with hleft | ⟨t0, fk, hpend, _⟩
    · exact hleft
    · simp at hpend

/-- Closed witness for C8: a video navigation at t=0 followed by an idle
frame at t=200 issues the load at frame 1. -/
theorem video_debounce_witness :
    ∃ i fi fk, [Fr.mk (Nav.video "a.mp4") 0, Fr.mk Nav.idle 200][i]? = some fi ∧
      [Fr.mk (Nav.video "a.mp4") 0, Fr.mk Nav.idle 200][1]? = some fk ∧ i ≤ 1 ∧
      fi.nav = Nav.video "a.mp4" ∧ fi.now + 150 ≤ fk.now ∧
      ∀ j fj, i < j → j ≤ 1 →
        [Fr.mk (Nav.video "a.mp4") 0, Fr.mk Nav.idle 200][j]? = some fj →
        (fj.nav = Nav.idle ∨ fj.nav = Nav.other) :=
  video_debounce.2.2 [Fr.mk (Nav.video "a.mp4") 0, Fr.mk Nav.idle 200] 1 "a.mp4" (by decide)

end LV
